import Mathlib

/-!
Verification of the consensus core of axiomesh/axiom against its
natural-language specification.  The Go sources are shallowly embedded as
executable Lean definitions: byte strings become `List Nat` (each entry a
byte value), maps become association lists, channels become lists of
emitted events, and goroutine loops become folds over the list of events
they consume.  Machine integers are `Nat` with explicit `% 2^64` where Go
overflow semantics matter.
-/

/-! ## Solo engine: `listenReadyBlock` (src/internal/consensus/solo/node.go) -/

/-- A request batch as delivered on `blockCh`: the batch hash and the list
of transactions (transactions kept abstract as `Nat` identifiers). -/
structure RequestHashBatch where
  batchHash : String
  txList : List Nat
  timestamp : Int
deriving DecidableEq, Repr

/-- A block header as built by `listenReadyBlock`: only the fields the solo
loop fills in. -/
structure BlockHeader where
  epoch : Nat
  number : Nat
  timestamp : Int
  proposerAccount : String
deriving DecidableEq, Repr

/-- A commit event emitted on `commitC`. -/
structure CommitEvent where
  header : BlockHeader
  transactions : List Nat
deriving DecidableEq, Repr

/-- One iteration of `Node.listenReadyBlock`: build the block at height
`lastExec + 1`, record the batch digest at that height, bump `lastExec`.
Returns the emitted commit event together with the updated
`(lastExec, batchDigestM)` state. -/
def listenReadyStep (proposer : String) (lastExec : Nat)
    (batchDigestM : List (Nat × String)) (e : RequestHashBatch) :
    CommitEvent × Nat × List (Nat × String) :=
  let block : CommitEvent :=
    { header :=
        { epoch := 1
          number := lastExec + 1
          timestamp := e.timestamp / 1000000000
          proposerAccount := proposer }
      transactions := e.txList }
  (block, lastExec + 1, (lastExec + 1, e.batchHash) :: batchDigestM)

/-- The whole `listenReadyBlock` loop consuming the batches on `blockCh` in
order; returns the commit events sent on `commitC` and the final
`(lastExec, batchDigestM)` state. -/
def listenReadyRun (proposer : String) (lastExec : Nat)
    (batchDigestM : List (Nat × String)) :
    List RequestHashBatch → List CommitEvent × Nat × List (Nat × String)
  | [] => ([], lastExec, batchDigestM)
  | e :: rest =>
    let (ev, lastExec1, m1) := listenReadyStep proposer lastExec batchDigestM e
    let (evs, lastExec2, m2) := listenReadyRun proposer lastExec1 m1 rest
    (ev :: evs, lastExec2, m2)

/-- Heights of a list of commit events. -/
def commitHeights (evs : List CommitEvent) : List Nat :=
  evs.map (fun ev => ev.header.number)

/-! ## Solo engine: `Prepare` and the transaction feed
(src/internal/consensus/solo/node.go lines 162-183, 222-224) -/

/-- The subscriber side of `txFeed`: every `SubscribeTxEvent` call registers
one channel; we model the feed as the list of message logs of the
registered channels.  `Send` appends the sent slice to every log. -/
def feedSend (txs : List Nat) (feed : List (List (List Nat))) :
    List (List (List Nat)) :=
  feed.map (fun log => log ++ [txs])

/-- `Node.SubscribeTxEvent`: registers a fresh channel on the feed. -/
def subscribeTxEvent (feed : List (List (List Nat))) :
    List (List (List Nat)) :=
  feed ++ [[]]

/-- Outcome of `Node.Prepare`. -/
inductive PrepareResult where
  | ok
  | notStarted
  | preCheckFailed (msg : String)
  | addTxPoolFailed (msg : String)
deriving DecidableEq, Repr

/-- `Node.Prepare(tx)`.  The function first registers
`defer n.txFeed.Send([]{tx})`, so the transaction is published to the feed
on every return path; then it checks `Ready`, waits for the pre-check
response and finally for the pool response.  `checkResp`/`poolResp` are the
`(Status, ErrorMsg)` pairs received on `CheckCh`/`PoolCh`. -/
def prepare (started : Bool) (checkResp poolResp : Bool × String)
    (tx : Nat) (feed : List (List (List Nat))) :
    List (List (List Nat)) × PrepareResult :=
  let published := feedSend [tx] feed
  if !started then (published, .notStarted)
  else if !checkResp.1 then (published, .preCheckFailed checkResp.2)
  else if !poolResp.1 then (published, .addTxPoolFailed poolResp.2)
  else (published, .ok)

/-! ## RBFT node: `ReportState` (src/pkg/order/rbft/node.go lines 281-314) -/

/-- The adaptor state fields read by `ReportState`. -/
structure RbftStack where
  stateUpdating : Bool
  stateUpdateHeight : Nat
deriving DecidableEq, Repr

/-- Calls `ReportState` makes into the BFT library. -/
inductive RbftCall where
  | reportStateUpdated (height : Nat)
  | stableCheckpointFinished (height : Nat)
  | reportExecuted (height : Nat)
deriving DecidableEq, Repr

/-! ## Solo engine: batch timers and `processBatchTimeout`
(src/internal/consensus/solo/node.go lines 338-418) -/

/-- The timer-manager calls issued by the solo event loop, in order. -/
inductive TimerOp where
  | stopBatch
  | stopNoTx
  | restartBatch
  | restartNoTx
deriving DecidableEq, Repr

/-- A batch returned by the pool, reduced to its transaction list. -/
structure PoolBatch where
  txs : List Nat
deriving DecidableEq, Repr

/-- Batch-generation triggers of the pool. -/
inductive BatchTrigger where
  | genBatchSizeEvent
  | genBatchTimeoutEvent
  | genBatchNoTxTimeoutEvent
deriving DecidableEq, Repr

/-- Modelled from the spec: `GenerateRequestBatch(trigger)` of the axiom-kit
transaction pool, whose implementation is not under src/.  Per spec 4.2 it
forms a batch from the pending transactions bounded by `BlockMaxTxNum`,
returns nil on a `Timeout` trigger when there is no eligible transaction,
and for `NoTxTimeout` with an empty pool returns an empty batch only when
`enableGenEmptyBlock` is on.  The pending set is modelled as a FIFO list of
transaction identifiers. -/
def generateRequestBatch (enableGenEmptyBlock : Bool) (blockMaxTxNum : Nat)
    (trigger : BatchTrigger) (pool : List Nat) : Option PoolBatch × List Nat :=
  match trigger with
  | .genBatchSizeEvent =>
    if pool.isEmpty then (none, pool)
    else (some ⟨pool.take blockMaxTxNum⟩, pool.drop blockMaxTxNum)
  | .genBatchTimeoutEvent =>
    if pool.isEmpty then (none, pool)
    else (some ⟨pool.take blockMaxTxNum⟩, pool.drop blockMaxTxNum)
  | .genBatchNoTxTimeoutEvent =>
    if pool.isEmpty && enableGenEmptyBlock then (some ⟨[]⟩, pool)
    else (none, pool)

/-- The two named timers handled by `processBatchTimeout`. -/
inductive TimerKind where
  | batch
  | noTxBatch
deriving DecidableEq, Repr

/-- `Node.processBatchTimeout`.  Returns the pool after the call, the timer
operations issued (body first, then the deferred restarts in LIFO order)
and the batches posted as proposals.  `HasPendingRequestInPool` is
`!pool.isEmpty`.  In the `Batch` case the deferred `NoTxBatch` restart runs
only when the pool still has pending requests at defer time and
`enableGenEmptyBlock` is on; the deferred `Batch` restart always runs.  In
the `NoTxBatch` case the deferred restart runs whenever
`enableGenEmptyBlock` is on. -/
def processBatchTimeout (kind : TimerKind) (enableGenEmptyBlock : Bool)
    (blockMaxTxNum : Nat) (pool : List Nat) :
    List Nat × List TimerOp × List PoolBatch :=
  match kind with
  | .batch =>
    if pool.isEmpty then
      (pool, [.stopBatch, .restartBatch], [])
    else
      let (ob, pool1) :=
        generateRequestBatch enableGenEmptyBlock blockMaxTxNum
          .genBatchTimeoutEvent pool
      let posted := match ob with | some b => [b] | none => []
      let deferNoTx :=
        if !pool1.isEmpty && enableGenEmptyBlock then [TimerOp.restartNoTx]
        else []
      (pool1, [TimerOp.stopBatch, TimerOp.stopNoTx] ++ deferNoTx
        ++ [TimerOp.restartBatch], posted)
  | .noTxBatch =>
    let deferRestart := if enableGenEmptyBlock then [TimerOp.restartNoTx] else []
    if !pool.isEmpty then
      (pool, TimerOp.stopNoTx :: deferRestart, [])
    else
      let (ob, pool1) :=
        generateRequestBatch enableGenEmptyBlock blockMaxTxNum
          .genBatchNoTxTimeoutEvent pool
      let posted := match ob with | some b => [b] | none => []
      (pool1, TimerOp.stopNoTx :: deferRestart, posted)

/-! ## Solo engine: checkpoint handling in `listenEvent`
(src/internal/consensus/solo/node.go lines 244-264) -/

/-- A batch kept in the pool's batch store, referenced by digest. -/
structure StoredBatch where
  digest : String
  height : Nat
deriving DecidableEq, Repr

/-- Modelled from the spec: `RemoveBatches(digests)` of the axiom-kit
transaction pool (not under src/) drops the referenced batches and evicts
their transactions; it is idempotent. -/
def removeBatches (store : List StoredBatch) (digests : List String) :
    List StoredBatch :=
  store.filter (fun b => !(digests.contains b.digest))

/-- Insert into an ascending list of heights (helper for the
`sortkeys.Uint64s` call in the source). -/
def insertNat (x : Nat) : List Nat → List Nat
  | [] => [x]
  | y :: ys => if x ≤ y then x :: y :: ys else y :: insertNat x ys

/-- Ascending insertion sort on heights, the effect of `sortkeys.Uint64s`. -/
def sortNat : List Nat → List Nat
  | [] => []
  | x :: xs => insertNat x (sortNat xs)

/-- Insert a `(height, digest)` pair into a list sorted by height. -/
def insertPair (p : Nat × String) :
    List (Nat × String) → List (Nat × String)
  | [] => [p]
  | q :: qs => if p.1 ≤ q.1 then p :: q :: qs else q :: insertPair p qs

/-- Sort `(height, digest)` pairs by ascending height. -/
def sortPairs : List (Nat × String) → List (Nat × String)
  | [] => []
  | p :: ps => insertPair p (sortPairs ps)

/-- The `*chainState` checkpoint branch of `Node.listenEvent`: when
`Height % checkpoint == 0`, flatten `batchDigestM` to a digest list sorted
by ascending height, delete every visited height from the map, and call
`RemoveBatches` with the list.  Returns the new digest map, the new batch
store and the digest list passed to `RemoveBatches`. -/
def chainStateCheckpoint (checkpoint : Nat) (batchDigestM : List (Nat × String))
    (store : List StoredBatch) (height : Nat) :
    List (Nat × String) × List StoredBatch × List String :=
  if height % checkpoint == 0 then
    let heightList := sortNat (batchDigestM.map Prod.fst)
    let digestList := heightList.map (fun h => (batchDigestM.lookup h).getD "")
    let m1 := batchDigestM.filter (fun p => !(heightList.contains p.1))
    (m1, removeBatches store digestList, digestList)
  else
    (batchDigestM, store, [])

/-- The digests the claim expects at a checkpoint: those of stored heights
`≤ height`, in ascending height order. -/
def digestsUpTo (batchDigestM : List (Nat × String)) (height : Nat) :
    List String :=
  (sortPairs (batchDigestM.filter (fun p => p.1 ≤ height))).map Prod.snd

/-- `Node.ReportState(height, …)`.  Outside state transfer the checkpoint
notification fires when `height % 10 == 0` — the period `10` is a literal
in the source (marked `TODO: read from cfg`), not the configured
`CheckpointPeriod`. -/
def reportState (stack : RbftStack) (height : Nat) :
    RbftStack × List RbftCall :=
  if stack.stateUpdating && !(stack.stateUpdateHeight == height) then
    (stack, [])
  else if stack.stateUpdating then
    ({ stack with stateUpdating := false }, [.reportStateUpdated height])
  else
    (stack,
      (if height % 10 == 0 then [.stableCheckpointFinished height] else [])
        ++ [.reportExecuted height])

/-! ## Local tx journal: length-prefixed records
(src/internal/txpool/tx_records.go) -/

/-- `binary.LittleEndian.PutUint64`: the 8 little-endian bytes of `n`. -/
def le64encode (n : Nat) : List Nat :=
  [n % 256, n / 256 % 256, n / 256 ^ 2 % 256, n / 256 ^ 3 % 256,
   n / 256 ^ 4 % 256, n / 256 ^ 5 % 256, n / 256 ^ 6 % 256, n / 256 ^ 7 % 256]

/-- `binary.LittleEndian.Uint64` of the first 8 bytes of the stream. -/
def le64decode : List Nat → Nat
  | b0 :: b1 :: b2 :: b3 :: b4 :: b5 :: b6 :: b7 :: _ =>
    b0 + 256 * (b1 + 256 * (b2 + 256 * (b3 + 256 * (b4 + 256 * (b5 + 256 * (b6 + 256 * b7))))))
  | _ => 0

/-- One journal record: `{u64 little-endian length}{payload}`. -/
def encodeRecord (payload : List Nat) : List Nat :=
  le64encode payload.length ++ payload

/-- `txRecords.batchWrite`: marshal each transaction, frame it, and
concatenate; a marshal error aborts the whole write with an error
(modelled as `none`). -/
def batchWrite {α : Type} (marshal : α → Option (List Nat)) :
    List α → Option (List Nat)
  | [] => some []
  | t :: rest =>
    match marshal t with
    | none => none
    | some b =>
      match batchWrite marshal rest with
      | none => none
      | some r => some (encodeRecord b ++ r)

/-- `txRecords.load`: scan the stream record by record.  Fewer than 8 bytes
left means `Peek` fails with EOF and the scan ends; a short read consumes
the remaining bytes (`io.ReadFull` semantics) so the scan ends at the next
peek; a record whose payload fails to unmarshal is skipped and scanning
continues. -/
def load {α : Type} (unm : List Nat → Option α) (s : List Nat) : List α :=
  if _h8 : s.length < 8 then []
  else
    let len := le64decode s
    let rest := s.drop 8
    if _hshort : rest.length < len then []
    else
      match unm (rest.take len) with
      | some t => t :: load unm (rest.drop len)
      | none => load unm (rest.drop len)
termination_by s.length
decreasing_by
  all_goals
    simp only [List.length_drop]
    omega

/-! ## Local tx journal: `rotate` (src/internal/txpool/tx_records.go
lines 175-241) -/

/-- A pooled transaction as stored in a `txSortedMap`: the raw transaction
plus its `local` flag. -/
structure InternalTx (α : Type) where
  isLocal : Bool
  rawTx : α
deriving DecidableEq, Repr

/-- The in-progress write state of `rotate`: chunks already written to the
replacement file, the batch being assembled, and the `batchCount` /
`record` counters of the source. -/
structure RotState where
  chunks : List (List Nat)
  batch : List Nat
  batchCount : Nat
  record : Nat
deriving DecidableEq, Repr

/-- One transaction of the `rotate` loop: skip non-local transactions, skip
transactions whose marshal fails (logged in the source), otherwise append
the framed record to the batch and flush the batch to the file when
`batchCount >= TxRecordsBatchSize (1000)` or `record == len(all)` (the
number of accounts, as in the source). -/
def rotateTxStep {α : Type} (marshal : α → Option (List Nat)) (nAccounts : Nat)
    (st : RotState) (itx : InternalTx α) : RotState :=
  if !itx.isLocal then st
  else
    match marshal itx.rawTx with
    | none => st
    | some b =>
      let batch1 := st.batch ++ encodeRecord b
      let batchCount1 := st.batchCount + 1
      let record1 := st.record + 1
      if batchCount1 ≥ 1000 || record1 == nAccounts then
        ⟨st.chunks ++ [batch1], [], 0, record1⟩
      else
        ⟨st.chunks, batch1, batchCount1, record1⟩

/-- The double loop of `rotate` over all accounts and their transactions. -/
def rotateFold {α : Type} (marshal : α → Option (List Nat)) (nAccounts : Nat)
    (st : RotState) (all : List (String × List (InternalTx α))) : RotState :=
  all.foldl (fun s acc => acc.2.foldl (rotateTxStep marshal nAccounts) s) st

/-- The chunks `rotate` writes to `path+".new"`, in order, including the
final `if len(batch) > 0` flush. -/
def rotateChunks {α : Type} (marshal : α → Option (List Nat))
    (all : List (String × List (InternalTx α))) : List (List Nat) :=
  let st := rotateFold marshal all.length ⟨[], [], 0, 0⟩ all
  if st.batch.isEmpty then st.chunks else st.chunks ++ [st.batch]

/-- The file-system operations `rotate` performs, in order. -/
inductive RotateOp where
  | openNew
  | writeNew (chunk : List Nat)
  | renameNew
  | reopenAppend
deriving DecidableEq, Repr

/-- The journal files: content of `filePath` and of `filePath+".new"`
(`none` = absent). -/
structure JournalFS where
  main : Option (List Nat)
  fresh : Option (List Nat)
deriving DecidableEq, Repr

/-- Effect of one rotate operation on the two files: `openNew` creates or
truncates the replacement, `writeNew` appends to it, `renameNew` renames it
over the journal path, `reopenAppend` reopens the journal for append
(content unchanged). -/
def applyRotateOp (fs : JournalFS) : RotateOp → JournalFS
  | .openNew => { fs with fresh := some [] }
  | .writeNew c => { fs with fresh := fs.fresh.map (· ++ c) }
  | .renameNew => { main := fs.fresh, fresh := none }
  | .reopenAppend => fs

/-- Apply a list of rotate operations in order. -/
def applyOps (fs : JournalFS) (ops : List RotateOp) : JournalFS :=
  ops.foldl applyRotateOp fs

/-- The full operation trace of a successful `rotate` run. -/
def rotateTrace {α : Type} (marshal : α → Option (List Nat))
    (all : List (String × List (InternalTx α))) : List RotateOp :=
  .openNew :: (rotateChunks marshal all).map .writeNew
    ++ [.renameNew, .reopenAppend]

/-- The local transactions of a pool snapshot, account by account in
snapshot order. -/
def localTxs {α : Type} (all : List (String × List (InternalTx α))) :
    List (InternalTx α) :=
  (all.map (fun a => a.2.filter (fun itx => itx.isLocal))).flatten

/-! ## State ledger: `IterateTrie` / `GenerateSnapshot`
(src/internal/ledger/state_ledger.go lines 242-310 and 325-373).
The jmt iterator lives in axiom-kit; the stream a trie root yields is
passed in as the list of nodes delivered before the terminating
`ErrorNoMoreData` (or before a real error).  The definitions below embed
the per-trie-root body of the BFS loop of each source function. -/

/-- A node yielded by the jmt iterator: raw key/value of the node and, for
leaves, the decoded leaf key/value (`LeafValue` empty for internal
nodes). -/
structure JmtNode where
  rawKey : List Nat
  rawValue : List Nat
  leafKey : List Nat
  leafValue : List Nat
deriving DecidableEq, Repr

/-- Modelled from the spec: decoding `types.InnerAccount` from a leaf value
(axiom-kit, not under src/): the storage root (`none` for the zero hash)
and the code hash. -/
structure InnerAccount where
  storageRoot : Option (List Nat)
  codeHash : List Nat
deriving DecidableEq, Repr

/-- Modelled from the spec: `utils.CompositeCodeKey(address, codeHash)`
(axiom-ledger utils, not under src/): the code blob key derived from the
address and code hash. -/
def compositeCodeKey (addr codeHash : List Nat) : List Nat :=
  99 :: addr ++ codeHash

/-- `maxBatchSize`: 64 MiB, the flush threshold of the batch writes. -/
def maxBatchSize : Nat := 64 * 1024 * 1024

/-- Size of a pending batch: total bytes of its keys and values. -/
def batchSize (b : List (List Nat × List Nat)) : Nat :=
  (b.map (fun p => p.1.length + p.2.length)).sum

/-- Batch state during a traversal: chunks already committed to the target
store and the in-flight batch. -/
structure TrieBatchState where
  commits : List (List (List Nat × List Nat))
  pending : List (List Nat × List Nat)
deriving DecidableEq, Repr

/-- `batch.Put` followed by the source's size check: commit and reset the
batch when its size exceeds `maxBatchSize`. -/
def putFlush (st : TrieBatchState) (p : List Nat × List Nat) : TrieBatchState :=
  if batchSize (st.pending ++ [p]) > maxBatchSize then
    ⟨st.commits ++ [st.pending ++ [p]], []⟩
  else ⟨st.commits, st.pending ++ [p]⟩

/-- `batch.Put` with no size check after it (the root-entry and code-copy
puts in the source). -/
def putPlain (st : TrieBatchState) (p : List Nat × List Nat) : TrieBatchState :=
  ⟨st.commits, st.pending ++ [p]⟩

/-- Result of traversing one trie root: the batch state, the storage roots
enqueued for later traversal, and the error sent on `errC` (if any). -/
structure RootResult where
  commits : List (List (List Nat × List Nat))
  pending : List (List Nat × List Nat)
  queued : List (List Nat)
  errSent : Option String
deriving DecidableEq, Repr

/-- One node of the `GenerateSnapshot` inner loop: put the leaf key/value
pair (with flush check) and, when iterating the original state root and the
leaf decodes to a contract account with a non-zero storage root, enqueue
that storage root. -/
def genSnapshotNode (dec : List Nat → InnerAccount) (stateRoot trieRoot : List Nat)
    (acc : TrieBatchState × List (List Nat)) (n : JmtNode) :
    TrieBatchState × List (List Nat) :=
  let st1 := putFlush acc.1 (n.leafKey, n.leafValue)
  if trieRoot == stateRoot && !n.leafValue.isEmpty then
    match (dec n.leafValue).storageRoot with
    | some r => (st1, acc.2 ++ [r])
    | none => (st1, acc.2)
  else (st1, acc.2)

/-- The `GenerateSnapshot` body for one trie root: iterate the leaf stream;
a real iterator error is sent on `errC` and aborts (no root entry, no final
commit); otherwise the loop ends by copying the root node entry from the
backend into the batch. -/
def generateSnapshotRoot (bk : List Nat → List Nat) (dec : List Nat → InnerAccount)
    (stateRoot trieRoot : List Nat) (nodes : List JmtNode)
    (iterErr : Option String) (st : TrieBatchState) : RootResult :=
  let (st1, q) := nodes.foldl (genSnapshotNode dec stateRoot trieRoot) (st, [])
  match iterErr with
  | some e => ⟨st1.commits, st1.pending, q, some e⟩
  | none =>
    let st2 := putPlain st1 (trieRoot, bk trieRoot)
    ⟨st2.commits, st2.pending, q, none⟩

/-- One node of the `IterateTrie` inner loop: put the raw node key/value
(with flush check) and, for a contract-account leaf of the original root,
also copy the code blob keyed by `(address, codeHash)` and enqueue the
storage root. -/
def iterateTrieNode (bk : List Nat → List Nat) (dec : List Nat → InnerAccount)
    (stateRoot trieRoot : List Nat) (acc : TrieBatchState × List (List Nat))
    (n : JmtNode) : TrieBatchState × List (List Nat) :=
  let st1 := putFlush acc.1 (n.rawKey, n.rawValue)
  if trieRoot == stateRoot && !n.leafValue.isEmpty then
    match (dec n.leafValue).storageRoot with
    | some r =>
      let ck := compositeCodeKey n.leafKey (dec n.leafValue).codeHash
      (putPlain st1 (ck, bk ck), acc.2 ++ [r])
    | none => (st1, acc.2)
  else (st1, acc.2)

/-- The `IterateTrie` body for one trie root (with the prune cache
disabled, the only branch that is well-defined in the source): iterate the
full node stream, abort on a real iterator error, otherwise finish with the
root-entry put. -/
def iterateTrieRoot (bk : List Nat → List Nat) (dec : List Nat → InnerAccount)
    (stateRoot trieRoot : List Nat) (nodes : List JmtNode)
    (iterErr : Option String) (st : TrieBatchState) : RootResult :=
  let (st1, q) := nodes.foldl (iterateTrieNode bk dec stateRoot trieRoot) (st, [])
  match iterErr with
  | some e => ⟨st1.commits, st1.pending, q, some e⟩
  | none =>
    let st2 := putPlain st1 (trieRoot, bk trieRoot)
    ⟨st2.commits, st2.pending, q, none⟩

/-- All pairs a root traversal has handed to the target store: committed
chunks flattened, then the in-flight batch. -/
def rootWrites (r : RootResult) : List (List Nat × List Nat) :=
  r.commits.flatten ++ r.pending

/-- The pairs the claim allows `GenerateSnapshot` to write: leaf key/value
pairs of iterated nodes. -/
def leafPairsOnly (nodes : List JmtNode) (r : RootResult) : Prop :=
  ∀ p ∈ rootWrites r, ∃ n ∈ nodes, p = (n.leafKey, n.leafValue)

/-- The per-node writes of `IterateTrie`: the raw node pair, plus the code
blob copy for contract-account leaves of the original root. -/
def iterNodeWrites (bk : List Nat → List Nat) (dec : List Nat → InnerAccount)
    (stateRoot trieRoot : List Nat) (n : JmtNode) : List (List Nat × List Nat) :=
  (n.rawKey, n.rawValue) ::
    (if trieRoot == stateRoot && !n.leafValue.isEmpty then
      match (dec n.leafValue).storageRoot with
      | some _ =>
        [(compositeCodeKey n.leafKey (dec n.leafValue).codeHash,
          bk (compositeCodeKey n.leafKey (dec n.leafValue).codeHash))]
      | none => []
    else [])

/-! ## Archiver: `Archive` (src/internal/ledger/archive/archive.go
lines 63-162) -/

/-- A batched KV operation of the archiver. -/
inductive ArchKVOp where
  | put (k v : List Nat)
  | del (k : List Nat)
deriving DecidableEq, Repr

/-- One entry of `StateJournal.TrieJournal`, with the encoded forms the
archiver writes (`RootNodeKey.Encode()`, `v.Encode()`). -/
structure TrieJournalEntry where
  rootHash : List Nat
  rootNodeKey : List Nat
  dirtySet : List (List Nat × List Nat)
  pruneSet : List (List Nat)
deriving DecidableEq, Repr

/-- `types.StateJournal`: per-block trie journal, code journal, and its
`Encode()` blob. -/
structure StateJournal where
  trieJournal : List TrieJournalEntry
  codeJournal : List (List Nat × List Nat)
  encoded : List Nat
deriving DecidableEq, Repr

/-- Modelled from the spec: `utils.CompositeKey(tag, suffix)` (axiom-ledger
utils, not under src/) — a tagged key.  Tag 1 is `PruneJournalKey`, tag 2 is
`ArchiveKey`; `[4]`/`[5]` stand for `MinHeightStr`/`MaxHeightStr` and `[3]`
for `SnapshotMetaKey`. -/
def compositeKey (tag : Nat) (suffix : List Nat) : List Nat :=
  tag :: suffix

/-- The block header fields `Archive` reads. -/
structure ArchiveHeader where
  number : Nat
  epoch : Nat
deriving DecidableEq, Repr

/-- The archiver state: `lastArchiveBlock`, the three KV stores as op logs,
and the dated snapshot directory copies (height, snapshot-store content at
copy time). -/
structure ArchiverState where
  lastArchiveBlock : Nat
  journalKV : List ArchKVOp
  historyKV : List ArchKVOp
  snapshotKV : List ArchKVOp
  snapshotDirs : List (Nat × List ArchKVOp)
deriving DecidableEq, Repr

/-- The journal-KV write of `Archive`: the encoded state journal keyed by
height. -/
def archiveJournalOps (hdr : ArchiveHeader) (sj : StateJournal) : List ArchKVOp :=
  [.put (compositeKey 1 (le64encode hdr.number)) sj.encoded]

/-- The history-KV writes of `Archive`: every trie journal root entry and
dirty node, then the code journal. -/
def archiveHistoryOps (sj : StateJournal) : List ArchKVOp :=
  (sj.trieJournal.map (fun j =>
    .put j.rootHash j.rootNodeKey :: j.dirtySet.map (fun kv => ArchKVOp.put kv.1 kv.2))).flatten
  ++ sj.codeJournal.map (fun kv => .put kv.1 kv.2)

/-- The live-snapshot-KV writes of `Archive`: root entries, `DirtySet` as
puts, `PruneSet` as deletes, then the code journal. -/
def archiveSnapshotOps (sj : StateJournal) : List ArchKVOp :=
  (sj.trieJournal.map (fun j =>
    .put j.rootHash j.rootNodeKey :: j.dirtySet.map (fun kv => ArchKVOp.put kv.1 kv.2)
      ++ j.pruneSet.map (fun k => ArchKVOp.del k))).flatten
  ++ sj.codeJournal.map (fun kv => .put kv.1 kv.2)

/-- The snapshot-meta writes performed right before the snapshot directory
is copied. -/
def archiveMetaOps (metaBytes : List Nat) (number : Nat) : List ArchKVOp :=
  [.put (compositeKey 3 []) metaBytes,
   .put (compositeKey 1 [4]) (le64encode number),
   .put (compositeKey 1 [5]) (le64encode number),
   .put (compositeKey 2 [5]) (le64encode number)]

/-- Go `uint64` subtraction `a - b` (wrapping). -/
def usub64 (a b : Nat) : Nat :=
  (a + (2 ^ 64 - b % 2 ^ 64)) % 2 ^ 64

/-- How an `Archive` call ended. -/
inductive ArchiveOutcome where
  | skippedNonSyncer
  | notRotated
  | epochInfoErr
  | metaMarshalErr
  | rotated
deriving DecidableEq, Repr

/-- `Archiver.Archive(blockHeader, stateJournal)`.  `chainState` is `none`
when the archiver has no chain state, otherwise `some IsDataSyncer`;
`epochInfo` is `chainState.GetEpochInfo` and `marshalMeta` is
`SnapshotMeta.Marshal` (failure = `none`).  When the guard passes, the
three per-block KV writes always happen; the snapshot rotation (write meta,
close, copy the directory to `snapshot-<height>-<ts>`, reopen, update
`lastArchiveBlock`) happens only when
`blockHeader.Number - lastArchiveBlock` (uint64 arithmetic) is at least
`ArchiveBlockNum`. -/
def archive (archiveBlockNum : Nat) (chainState : Option Bool)
    (epochInfo : Nat → Option (List Nat))
    (marshalMeta : ArchiveHeader → List Nat → Option (List Nat))
    (st : ArchiverState) (hdr : ArchiveHeader) (sj : StateJournal) :
    ArchiverState × ArchiveOutcome :=
  if (match chainState with | some ds => !ds | none => false) then
    (st, .skippedNonSyncer)
  else
    let st1 := { st with
      journalKV := st.journalKV ++ archiveJournalOps hdr sj
      historyKV := st.historyKV ++ archiveHistoryOps sj
      snapshotKV := st.snapshotKV ++ archiveSnapshotOps sj }
    if usub64 hdr.number st.lastArchiveBlock < archiveBlockNum then
      (st1, .notRotated)
    else
      match epochInfo hdr.epoch with
      | none => (st1, .epochInfoErr)
      | some ep =>
        match marshalMeta hdr ep with
        | none => (st1, .metaMarshalErr)
        | some metaBytes =>
          let snapKV2 := st1.snapshotKV ++ archiveMetaOps metaBytes hdr.number
          ({ st1 with
              snapshotKV := snapKV2
              snapshotDirs := st.snapshotDirs ++ [(hdr.number, snapKV2)]
              lastArchiveBlock := hdr.number },
            .rotated)

/-! ## Theorems -/

/-- C2: for every run of the solo engine starting with `lastExec = n0`, the
heights of the `CommitEvent`s emitted on `commitC` are exactly
`n0+1, n0+2, …` in order, without gaps and without repeats, and `lastExec`
increases by exactly one per emitted event. -/
theorem solo_commit_heights_consecutive (proposer : String) (n0 : Nat)
    (m : List (Nat × String)) (batches : List RequestHashBatch) :
    commitHeights (listenReadyRun proposer n0 m batches).1
        = List.range' (n0 + 1) batches.length
      ∧ (listenReadyRun proposer n0 m batches).2.1 = n0 + batches.length := by
  induction batches generalizing n0 m with
  | nil => simp [listenReadyRun, commitHeights]
  | cons e rest ih =>
    have h := ih (n0 + 1) ((n0 + 1, e.batchHash) :: m)
    simp only [listenReadyRun, listenReadyStep, commitHeights, List.map_cons,
      List.length_cons, List.range'_succ] at h ⊢
    exact ⟨by rw [h.1], by rw [h.2]; omega⟩

/-- C10: every call of the solo engine's `Prepare(tx)` publishes the
transaction to all `SubscribeTxEvent` subscribers via the transaction feed,
in every branch: node not started, pre-check rejection, pool admission
rejection, and success. -/
theorem solo_prepare_always_publishes (started : Bool)
    (checkResp poolResp : Bool × String) (tx : Nat)
    (feed : List (List (List Nat))) :
    (prepare started checkResp poolResp tx feed).1
        = feed.map (fun log => log ++ [[tx]])
      ∧ (started = false →
          (prepare started checkResp poolResp tx feed).2 = .notStarted)
      ∧ (started = true → checkResp.1 = false →
          (prepare started checkResp poolResp tx feed).2
            = .preCheckFailed checkResp.2)
      ∧ (started = true → checkResp.1 = true → poolResp.1 = false →
          (prepare started checkResp poolResp tx feed).2
            = .addTxPoolFailed poolResp.2) := by
  cases started <;> rcases checkResp with ⟨cs, cm⟩ <;>
    rcases poolResp with ⟨ps, pm⟩ <;> cases cs <;> cases ps <;>
    simp [prepare, feedSend]

/-- Witness for C10 at a concrete rejected transaction: the subscriber
still sees the transaction although `Prepare` failed before the pool. -/
theorem solo_prepare_always_publishes_witness :
    (prepare false (true, "") (true, "") 7 [[]]).1 = [[[7]]]
      ∧ (prepare false (true, "") (true, "") 7 [[]]).2 = .notStarted :=
  ⟨(solo_prepare_always_publishes false (true, "") (true, "") 7 [[]]).1,
   (solo_prepare_always_publishes false (true, "") (true, "") 7 [[]]).2.1 rfl⟩

/-- C7: evaluation of `ReportState` at the failing input.  With the
configured `CheckpointPeriod = 5`, a report at height 5 outside state
transfer must trigger `ReportStableCheckpointFinished`, but the source
hardcodes the period to the literal 10 (`TODO: read from cfg`), so no
checkpoint call is made; at height 10 it is.  During state transfer a
report for a height other than `StateUpdateHeight` has no effect. -/
theorem rbft_reportState_hardcoded_period_eval :
    reportState ⟨false, 0⟩ 5 = (⟨false, 0⟩, [.reportExecuted 5])
      ∧ RbftCall.stableCheckpointFinished 5 ∉ (reportState ⟨false, 0⟩ 5).2
      ∧ 5 % 5 = 0
      ∧ reportState ⟨false, 0⟩ 10
          = (⟨false, 0⟩, [.stableCheckpointFinished 10, .reportExecuted 10])
      ∧ reportState ⟨true, 7⟩ 5 = (⟨true, 7⟩, [])
      ∧ reportState ⟨true, 7⟩ 7
          = (⟨false, 7⟩, [.reportStateUpdated 7]) := by
  decide

/-- C5: evaluation of `processBatchTimeout(Batch)` at the failing input.
With `enableGenEmptyBlock = true` and a pool whose only pending transaction
is consumed by the generated batch, the batch is generated and posted and
the `Batch` timer restarted, but the `NoTxBatch` timer is not restarted —
the source's deferred restart fires only when `HasPendingRequestInPool()`
is still true, the opposite of its own comment and of the parallel
`genBatchReq` path. -/
theorem solo_batch_timeout_skips_notx_restart_eval :
    processBatchTimeout .batch true 10 [5]
        = ([], [.stopBatch, .stopNoTx, .restartBatch], [⟨[5]⟩])
      ∧ TimerOp.restartNoTx ∉ (processBatchTimeout .batch true 10 [5]).2.1 := by
  decide

/-- C6: on a `NoTxBatch` timeout, an empty batch is generated and posted
iff the pool is empty and `enableGenEmptyBlock` is on; whatever happens,
the `NoTxBatch` timer is restarted afterwards exactly when
`enableGenEmptyBlock` is on. -/
theorem solo_notx_timeout_empty_block (enable : Bool) (maxTx : Nat)
    (pool : List Nat) :
    ((processBatchTimeout .noTxBatch enable maxTx pool).2.2 ≠ []
        ↔ pool = [] ∧ enable = true)
      ∧ (∀ b ∈ (processBatchTimeout .noTxBatch enable maxTx pool).2.2,
          b.txs = [])
      ∧ (enable = true →
          (processBatchTimeout .noTxBatch enable maxTx pool).2.1
            = [.stopNoTx, .restartNoTx])
      ∧ (enable = false →
          (processBatchTimeout .noTxBatch enable maxTx pool).2.1
            = [.stopNoTx]) := by
  cases enable <;> cases pool <;>
    simp [processBatchTimeout, generateRequestBatch]

/-- Witness for C6 at concrete inputs: with an empty pool and empty-block
generation enabled, the empty batch is posted and the timer restarted. -/
theorem solo_notx_timeout_empty_block_witness :
    (∀ b ∈ (processBatchTimeout .noTxBatch true 5 ([] : List Nat)).2.2,
        b.txs = [])
      ∧ (processBatchTimeout .noTxBatch true 5 ([] : List Nat)).2.1
          = [.stopNoTx, .restartNoTx] :=
  ⟨(solo_notx_timeout_empty_block true 5 []).2.1,
   (solo_notx_timeout_empty_block true 5 []).2.2.1 rfl⟩

lemma mem_insertNat {x a : Nat} {l : List Nat} :
    a ∈ insertNat x l ↔ a = x ∨ a ∈ l := by
  induction l with
  | nil => simp [insertNat]
  | cons y ys ih =>
    by_cases hxy : x ≤ y
    · simp [insertNat, hxy]
    · simp only [insertNat, hxy, if_neg, Bool.false_eq_true, not_false_iff,
        List.mem_cons, ih]
      tauto

lemma mem_sortNat {a : Nat} {l : List Nat} : a ∈ sortNat l ↔ a ∈ l := by
  induction l with
  | nil => simp [sortNat]
  | cons x xs ih => simp [sortNat, mem_insertNat, ih]

lemma map_fst_insertPair (p : Nat × String) (l : List (Nat × String)) :
    (insertPair p l).map Prod.fst = insertNat p.1 (l.map Prod.fst) := by
  induction l with
  | nil => simp [insertPair, insertNat]
  | cons q qs ih =>
    by_cases hpq : p.1 ≤ q.1 <;> simp [insertPair, insertNat, hpq, ih]

lemma map_fst_sortPairs (l : List (Nat × String)) :
    (sortPairs l).map Prod.fst = sortNat (l.map Prod.fst) := by
  induction l with
  | nil => rfl
  | cons p ps ih => simp [sortPairs, sortNat, map_fst_insertPair, ih]

lemma insertPair_perm (p : Nat × String) (l : List (Nat × String)) :
    List.Perm (insertPair p l) (p :: l) := by
  induction l with
  | nil => rfl
  | cons q qs ih =>
    by_cases hpq : p.1 ≤ q.1
    · simp [insertPair, hpq]
    · simp only [insertPair, hpq, if_false]
      exact (ih.cons q).trans (List.Perm.swap p q qs)

lemma sortPairs_perm (l : List (Nat × String)) : List.Perm (sortPairs l) l := by
  induction l with
  | nil => rfl
  | cons p ps ih => exact (insertPair_perm p (sortPairs ps)).trans (ih.cons p)

lemma lookup_of_mem_nodup {l : List (Nat × String)}
    (hnd : (l.map Prod.fst).Nodup) {p : Nat × String} (hp : p ∈ l) :
    l.lookup p.1 = some p.2 := by
  induction l with
  | nil => cases hp
  | cons q qs ih =>
    simp only [List.map_cons, List.nodup_cons] at hnd
    rcases List.mem_cons.mp hp with h | h
    · subst h
      simp [List.lookup]
    · have hne : (p.1 == q.1) = false := by
        rw [beq_eq_false_iff_ne]
        intro he
        exact hnd.1 (he ▸ List.mem_map_of_mem Prod.fst h)
      simp only [List.lookup, hne]
      exact ih hnd.2 h

lemma sorted_insertNat {x : Nat} {l : List Nat}
    (h : List.Sorted (· ≤ ·) l) : List.Sorted (· ≤ ·) (insertNat x l) := by
  induction l with
  | nil => simp [insertNat]
  | cons y ys ih =>
    rcases List.sorted_cons.mp h with ⟨hy, hys⟩
    by_cases hxy : x ≤ y
    · simp only [insertNat, hxy, if_pos]
      exact List.sorted_cons.mpr ⟨by
        intro b hb
        rcases List.mem_cons.mp hb with rfl | hb
        · exact hxy
        · exact le_trans hxy (hy b hb), h⟩
    · simp only [insertNat, hxy, if_neg, Bool.false_eq_true, not_false_iff]
      exact List.sorted_cons.mpr ⟨by
        intro b hb
        rcases mem_insertNat.mp hb with rfl | hb
        · omega
        · exact hy b hb, ih hys⟩

lemma sorted_sortNat (l : List Nat) : List.Sorted (· ≤ ·) (sortNat l) := by
  induction l with
  | nil => simp [sortNat]
  | cons x xs ih => exact sorted_insertNat ih

/-- C1 (amended): at a checkpoint (`h % checkpoint == 0`) the solo event
loop calls `RemoveBatches` with the digests of ALL stored heights — not
only those `≤ h` — in ascending height order, and empties the digest map;
consequently every pool batch whose digest was stored in the map is
removed, in particular (given every pool batch of height `≤ h` has its
digest stored) no batch of height `≤ h` survives. -/
theorem solo_checkpoint_removes_all_stored_digests
    (cp : Nat) (m : List (Nat × String)) (store : List StoredBatch) (h : Nat)
    (hmod : h % cp = 0)
    (hnd : (m.map Prod.fst).Nodup)
    (hcov : ∀ b ∈ store, b.height ≤ h → ∃ p ∈ m, p.2 = b.digest) :
    (chainStateCheckpoint cp m store h).2.2 = (sortPairs m).map Prod.snd
      ∧ List.Sorted (· ≤ ·) ((sortPairs m).map Prod.fst)
      ∧ (chainStateCheckpoint cp m store h).1 = []
      ∧ ∀ b ∈ (chainStateCheckpoint cp m store h).2.1, h < b.height := by
  have hdig : (sortNat (m.map Prod.fst)).map (fun hh => (m.lookup hh).getD "")
      = (sortPairs m).map Prod.snd := by
    rw [← map_fst_sortPairs, List.map_map]
    apply List.map_congr_left
    intro p hp
    have hpm : p ∈ m := (sortPairs_perm m).mem_iff.mp hp
    simp [Function.comp, lookup_of_mem_nodup hnd hpm]
  have hsorted : List.Sorted (· ≤ ·) ((sortPairs m).map Prod.fst) := by
    rw [map_fst_sortPairs]
    exact sorted_sortNat _
  have hempty : m.filter
      (fun p => !((sortNat (m.map Prod.fst)).contains p.1)) = [] := by
    apply List.filter_eq_nil_iff.mpr
    intro p hp
    have : p.1 ∈ sortNat (m.map Prod.fst) :=
      mem_sortNat.mpr (List.mem_map_of_mem Prod.fst hp)
    simp [this]
  have hpool : ∀ b ∈ removeBatches store
      ((sortNat (m.map Prod.fst)).map (fun hh => (m.lookup hh).getD "")),
      h < b.height := by
    intro b hb
    simp only [removeBatches, List.mem_filter, Bool.not_eq_eq_eq_not,
      Bool.not_true] at hb
    by_contra hle
    push_neg at hle
    rcases hcov b hb.1 hle with ⟨p, hpm, hpd⟩
    have hmem : b.digest
        ∈ (sortNat (m.map Prod.fst)).map (fun hh => (m.lookup hh).getD "") := by
      rw [hdig]
      exact hpd ▸ List.mem_map_of_mem Prod.snd ((sortPairs_perm m).mem_iff.mpr hpm)
    have hct : (List.map (fun hh => (List.lookup hh m).getD "")
        (sortNat (List.map Prod.fst m))).contains b.digest = true :=
      List.elem_eq_true_of_mem hmem
    rw [hb.2] at hct
    cases hct
  simp only [chainStateCheckpoint, hmod, beq_self_eq_true, if_pos]
  exact ⟨hdig, hsorted, hempty, hpool⟩

/-- Witness for C1 (amended) at a concrete state: the digest map is emptied
and only the height-5 batch (not covered by the map) survives in the
pool. -/
theorem solo_checkpoint_removes_all_stored_digests_witness :
    (chainStateCheckpoint 2 [(1, "a"), (2, "b")] [⟨"a", 1⟩, ⟨"c", 5⟩] 2).1 = []
      ∧ ∀ b ∈ (chainStateCheckpoint 2 [(1, "a"), (2, "b")]
          [⟨"a", 1⟩, ⟨"c", 5⟩] 2).2.1, 2 < b.height :=
  have t := solo_checkpoint_removes_all_stored_digests 2 [(1, "a"), (2, "b")]
    [⟨"a", 1⟩, ⟨"c", 5⟩] 2 rfl (by decide) (by decide)
  ⟨t.2.2.1, t.2.2.2⟩

/-- C1 counterexample: with the digest map holding only height 3 and a
checkpoint at height 2, the loop passes the height-3 digest to
`RemoveBatches`, so the list is not "exactly the stored batch digests of
heights ≤ h" — that list would be empty. -/
theorem solo_checkpoint_height_filter_counterexample :
    2 % 2 = 0
      ∧ (chainStateCheckpoint 2 [(3, "d")] [⟨"d", 3⟩] 2).2.2 = ["d"]
      ∧ digestsUpTo [(3, "d")] 2 = []
      ∧ (chainStateCheckpoint 2 [(3, "d")] [⟨"d", 3⟩] 2).2.2
          ≠ digestsUpTo [(3, "d")] 2 := by
  refine ⟨rfl, by decide, by decide, by decide⟩

lemma le64encode_length (n : Nat) : (le64encode n).length = 8 := rfl

lemma le64decode_encode_append (n : Nat) (t : List Nat) (hn : n < 2 ^ 64) :
    le64decode (le64encode n ++ t) = n := by
  simp only [le64encode, List.cons_append, List.nil_append, le64decode]
  omega

lemma load_nil {α : Type} (unm : List Nat → Option α) : load unm [] = [] := by
  rw [load]
  simp

lemma take_len_append {α : Type} (l₁ l₂ : List α) :
    (l₁ ++ l₂).take l₁.length = l₁ := by
  rw [List.take_append_of_le_length (le_refl _), List.take_length]

lemma drop_len_append {α : Type} (l₁ l₂ : List α) :
    (l₁ ++ l₂).drop l₁.length = l₂ := by
  rw [List.drop_append_of_le_length (le_refl _), List.drop_length,
    List.nil_append]

lemma load_encodeRecord {α : Type} (unm : List Nat → Option α)
    (b rest : List Nat) (hb : b.length < 2 ^ 64) :
    load unm (encodeRecord b ++ rest)
      = match unm b with
        | some t => t :: load unm rest
        | none => load unm rest := by
  have hlen8 : ¬ (encodeRecord b ++ rest).length < 8 := by
    simp [encodeRecord, le64encode]
  have hdecode : le64decode (encodeRecord b ++ rest) = b.length := by
    rw [encodeRecord, List.append_assoc]
    exact le64decode_encode_append b.length (b ++ rest) hb
  have hdrop8 : (encodeRecord b ++ rest).drop 8 = b ++ rest := by
    rw [encodeRecord, List.append_assoc, ← le64encode_length b.length,
      drop_len_append]
  rw [load]
  rw [dif_neg hlen8]
  simp only [hdecode, hdrop8]
  have hshort : ¬ (b ++ rest).length < b.length := by
    simp
  rw [dif_neg hshort]
  rw [take_len_append, drop_len_append]

lemma load_short_read {α : Type} (unm : List Nat → Option α) (n : Nat)
    (t : List Nat) (hn : n < 2 ^ 64) (hlt : t.length < n) :
    load unm (le64encode n ++ t) = [] := by
  have hlen8 : ¬ (le64encode n ++ t).length < 8 := by
    simp [le64encode]
  have hd : le64decode (le64encode n ++ t) = n :=
    le64decode_encode_append n t hn
  have hdrop : (le64encode n ++ t).drop 8 = t := by
    rw [← le64encode_length n, drop_len_append]
  rw [load, dif_neg hlen8]
  simp only [hd, hdrop]
  rw [dif_pos hlt]

/-- C3: the journal round-trip.  Writing transactions with `batchWrite` and
loading the resulting byte stream with `load` yields exactly the written
transactions in order (given marshal/unmarshal round-trip on each); a
record whose payload fails to unmarshal is skipped while scanning continues
with the rest of the stream; and a record announcing more bytes than remain
(short read) consumes the remainder so the scan ends at EOF. -/
theorem txRecords_load_batchWrite_roundtrip {α : Type}
    (marshal : α → Option (List Nat)) (unm : List Nat → Option α)
    (txs : List α) (bytes : List Nat)
    (hmar : ∀ tx ∈ txs, ∃ b, marshal tx = some b ∧ unm b = some tx
      ∧ b.length < 2 ^ 64)
    (hw : batchWrite marshal txs = some bytes) :
    load unm bytes = txs
      ∧ (∀ b rest, b.length < 2 ^ 64 → unm b = none →
          load unm (encodeRecord b ++ rest) = load unm rest)
      ∧ ∀ n t, n < 2 ^ 64 → t.length < n →
          load unm (le64encode n ++ t) = [] := by
  refine ⟨?_, fun b rest hb hu => by rw [load_encodeRecord unm b rest hb, hu],
    fun n t hn hlt => load_short_read unm n t hn hlt⟩
  induction txs generalizing bytes with
  | nil =>
    simp only [batchWrite, Option.some.injEq] at hw
    rw [← hw, load_nil]
  | cons t rest ih =>
    rcases hmar t (List.mem_cons_self t rest) with ⟨b, hm, hu, hlen⟩
    simp only [batchWrite, hm] at hw
    cases hrest : batchWrite marshal rest with
    | none => rw [hrest] at hw; cases hw
    | some r =>
      rw [hrest] at hw
      simp only [Option.some.injEq] at hw
      rw [← hw, load_encodeRecord unm b r hlen, hu]
      exact congrArg (t :: ·) (ih r (fun tx htx => hmar tx (List.mem_cons_of_mem t htx)) hrest)

/-- Witness for C3 at a concrete two-record stream. -/
theorem txRecords_load_batchWrite_roundtrip_witness :
    load (fun b => some b)
        [2, 0, 0, 0, 0, 0, 0, 0, 7, 7, 1, 0, 0, 0, 0, 0, 0, 0, 9]
      = [[7, 7], [9]] :=
  (txRecords_load_batchWrite_roundtrip (fun b => some b) (fun b => some b)
    [[7, 7], [9]] [2, 0, 0, 0, 0, 0, 0, 0, 7, 7, 1, 0, 0, 0, 0, 0, 0, 0, 9]
    (by
      intro tx htx
      refine ⟨tx, rfl, rfl, ?_⟩
      simp only [List.mem_cons, List.not_mem_nil, or_false] at htx
      rcases htx with rfl | rfl <;> decide)
    (by decide)).1

/-- Bytes produced so far by the rotate loop: chunks written plus the batch
in flight. -/
def rotContent (st : RotState) : List Nat :=
  st.chunks.flatten ++ st.batch

/-- The framed record a single pool entry contributes during `rotate`
(empty for remote transactions and for marshal failures). -/
def rotateRecordOf {α : Type} (marshal : α → Option (List Nat))
    (itx : InternalTx α) : List Nat :=
  if itx.isLocal then
    match marshal itx.rawTx with
    | some b => encodeRecord b
    | none => []
  else []

lemma rotContent_step {α : Type} (marshal : α → Option (List Nat))
    (nAccounts : Nat) (st : RotState) (itx : InternalTx α) :
    rotContent (rotateTxStep marshal nAccounts st itx)
      = rotContent st ++ rotateRecordOf marshal itx := by
  rcases itx with ⟨loc, tx⟩
  cases loc with
  | false => simp [rotateTxStep, rotateRecordOf]
  | true =>
    cases hmt : marshal tx with
    | none => simp [rotateTxStep, rotateRecordOf, hmt]
    | some b =>
      simp only [rotateTxStep, rotateRecordOf, hmt, Bool.not_true,
        Bool.false_eq_true, not_false_iff, if_true, if_neg]
      split <;> simp [rotContent, List.append_assoc]

lemma rotContent_foldTxs {α : Type} (marshal : α → Option (List Nat))
    (nAccounts : Nat) (txs : List (InternalTx α)) (st : RotState) :
    rotContent (txs.foldl (rotateTxStep marshal nAccounts) st)
      = rotContent st ++ (txs.map (rotateRecordOf marshal)).flatten := by
  induction txs generalizing st with
  | nil => simp
  | cons itx rest ih =>
    simp only [List.foldl_cons, List.map_cons, List.flatten_cons]
    rw [ih, rotContent_step, List.append_assoc]

lemma rotContent_fold {α : Type} (marshal : α → Option (List Nat))
    (nAccounts : Nat) (all : List (String × List (InternalTx α)))
    (st : RotState) :
    rotContent (rotateFold marshal nAccounts st all)
      = rotContent st
        ++ (all.map (fun a => (a.2.map (rotateRecordOf marshal)).flatten)).flatten := by
  induction all generalizing st with
  | nil => simp [rotateFold]
  | cons a rest ih =>
    simp only [rotateFold, List.foldl_cons, List.map_cons, List.flatten_cons]
    rw [← rotateFold, ih, rotContent_foldTxs, List.append_assoc]

lemma rotateChunks_flatten {α : Type} (marshal : α → Option (List Nat))
    (all : List (String × List (InternalTx α))) :
    (rotateChunks marshal all).flatten
      = (all.map (fun a => (a.2.map (rotateRecordOf marshal)).flatten)).flatten := by
  have h := rotContent_fold marshal all.length all ⟨[], [], 0, 0⟩
  simp only [rotContent, List.flatten_nil, List.nil_append] at h
  unfold rotateChunks
  by_cases hb : (rotateFold marshal all.length ⟨[], [], 0, 0⟩ all).batch.isEmpty
  · simp only [hb, if_pos]
    rw [List.isEmpty_iff] at hb
    rw [hb, List.append_nil] at h
    exact h
  · simp only [hb, Bool.false_eq_true, if_neg, not_false_iff]
    rw [List.flatten_append, List.flatten_cons, List.flatten_nil,
      List.append_nil]
    exact h

lemma perAccount_records {α : Type} (marshal : α → Option (List Nat))
    (txs : List (InternalTx α)) :
    (txs.map (rotateRecordOf marshal)).flatten
      = ((txs.filter (fun itx => itx.isLocal)).map
          (rotateRecordOf marshal)).flatten := by
  induction txs with
  | nil => rfl
  | cons itx rest ih =>
    rcases itx with ⟨loc, tx⟩
    cases loc <;> simp [rotateRecordOf, List.filter_cons, ih]

lemma mem_localTxs {α : Type} {all : List (String × List (InternalTx α))}
    {itx : InternalTx α} (h : itx ∈ localTxs all) :
    itx.isLocal = true ∧ ∃ a ∈ all, itx ∈ a.2 := by
  unfold localTxs at h
  rcases List.mem_flatten.mp h with ⟨part, hpart, hitx⟩
  rcases List.mem_map.mp hpart with ⟨a, ha, rfl⟩
  rcases List.mem_filter.mp hitx with ⟨hmem, hloc⟩
  exact ⟨hloc, a, ha, hmem⟩

lemma applyOps_cons (fs : JournalFS) (op : RotateOp) (ops : List RotateOp) :
    applyOps fs (op :: ops) = applyOps (applyRotateOp fs op) ops := rfl

lemma localTxs_map_flatten {α : Type} (f : InternalTx α → List Nat)
    (all : List (String × List (InternalTx α))) :
    (all.map (fun a => ((a.2.filter (fun itx => itx.isLocal)).map f).flatten)).flatten
      = ((localTxs all).map f).flatten := by
  induction all with
  | nil => rfl
  | cons a rest ih =>
    simp only [localTxs, List.map_cons, List.flatten_cons, List.map_append,
      List.flatten_append] at ih ⊢
    rw [ih]

lemma applyOps_writeNew_chunks (main0 : Option (List Nat)) (c0 : List Nat)
    (chunks : List (List Nat)) (tail : List RotateOp) :
    applyOps ⟨main0, some c0⟩ (chunks.map .writeNew ++ tail)
      = applyOps ⟨main0, some (c0 ++ chunks.flatten)⟩ tail := by
  induction chunks generalizing c0 with
  | nil => simp
  | cons c cs ih =>
    simp only [List.map_cons, List.cons_append, applyOps, List.foldl_cons]
    have := ih (c0 ++ c)
    simp only [applyOps] at this
    rw [show applyRotateOp ⟨main0, some c0⟩ (.writeNew c)
        = ⟨main0, some (c0 ++ c)⟩ from rfl, this, List.flatten_cons,
      List.append_assoc]

lemma applyOps_main_of_no_rename (fs : JournalFS) (ops : List RotateOp)
    (h : RotateOp.renameNew ∉ ops) : (applyOps fs ops).main = fs.main := by
  induction ops generalizing fs with
  | nil => rfl
  | cons op rest ih =>
    simp only [List.mem_cons, not_or] at h
    have step : (applyRotateOp fs op).main = fs.main := by
      cases op with
      | renameNew => exact absurd rfl h.1
      | openNew => rfl
      | writeNew c => rfl
      | reopenAppend => rfl
    rw [applyOps, List.foldl_cons, ← applyOps, ih _ h.2, step]

/-- C4: a successful `rotate` leaves the journal containing exactly one
length-prefixed record for each local transaction of the snapshot, in
snapshot order — remote transactions are excluded, none are duplicated or
dropped — and the replacement file is written under `path+".new"` first and
only then renamed, so a rotate aborted anywhere before the rename leaves
the old journal content untouched. -/
theorem txRecords_rotate_atomic {α : Type}
    (marshal : α → Option (List Nat))
    (all : List (String × List (InternalTx α))) (fs : JournalFS)
    (hm : ∀ a ∈ all, ∀ itx ∈ a.2, itx.isLocal = true →
      ∃ b, marshal itx.rawTx = some b) :
    (applyOps fs (rotateTrace marshal all)).main
        = some (((localTxs all).map
            (fun itx => encodeRecord ((marshal itx.rawTx).getD []))).flatten)
      ∧ ∀ k, k ≤ (rotateChunks marshal all).length + 1 →
          (applyOps fs ((rotateTrace marshal all).take k)).main = fs.main := by
  constructor
  · have hrun : applyOps fs (rotateTrace marshal all)
        = ⟨some (rotateChunks marshal all).flatten, none⟩ := by
      unfold rotateTrace
      rw [List.cons_append, applyOps_cons,
        show applyRotateOp fs .openNew = ⟨fs.main, some []⟩ from rfl,
        applyOps_writeNew_chunks, List.nil_append]
      rfl
    rw [hrun]
    have hacc : ∀ a ∈ all, (a.2.map (rotateRecordOf marshal)).flatten
        = ((a.2.filter (fun itx => itx.isLocal)).map
            (fun itx => encodeRecord ((marshal itx.rawTx).getD []))).flatten := by
      intro a ha
      rw [perAccount_records]
      congr 1
      apply List.map_congr_left
      intro itx hitx
      rcases List.mem_filter.mp hitx with ⟨hmem, hloc⟩
      rcases hm a ha itx hmem hloc with ⟨b, hb⟩
      simp [rotateRecordOf, hloc, hb]
    show some ((rotateChunks marshal all).flatten) = _
    rw [rotateChunks_flatten, List.map_congr_left hacc,
      localTxs_map_flatten]
  · intro k hk
    apply applyOps_main_of_no_rename
    intro hmem
    have hsub : (rotateTrace marshal all).take k
        ⊆ (RotateOp.openNew :: (rotateChunks marshal all).map .writeNew) := by
      intro x hx
      have : (rotateTrace marshal all).take k
          = (RotateOp.openNew :: (rotateChunks marshal all).map .writeNew).take k := by
        unfold rotateTrace
        rw [show (RotateOp.openNew :: (rotateChunks marshal all).map .writeNew
            ++ [.renameNew, .reopenAppend])
          = (RotateOp.openNew :: (rotateChunks marshal all).map .writeNew)
            ++ [.renameNew, .reopenAppend] from rfl,
          List.take_append_of_le_length (by simpa using hk)]
      rw [this] at hx
      exact List.take_subset k _ hx
    rcases List.mem_cons.mp (hsub hmem) with h | h
    · cases h
    · rcases List.mem_map.mp h with ⟨c, _, h⟩
      cases h

/-- Witness for C4 at a concrete snapshot: two accounts, one remote
transaction excluded; the renamed journal holds exactly the two local
records, and truncating the run after the first write leaves the old
content `[9]` in place. -/
theorem txRecords_rotate_atomic_witness :
    (applyOps ⟨some [9], none⟩ (rotateTrace (fun t => some [t])
        [("a", [⟨true, 1⟩, ⟨false, 2⟩]), ("b", [⟨true, 3⟩])])).main
      = some [1, 0, 0, 0, 0, 0, 0, 0, 1, 1, 0, 0, 0, 0, 0, 0, 0, 3]
      ∧ (applyOps ⟨some [9], none⟩ ((rotateTrace (fun t => some [t])
          [("a", [⟨true, 1⟩, ⟨false, 2⟩]), ("b", [⟨true, 3⟩])]).take 2)).main
        = some [9] :=
  have t := txRecords_rotate_atomic (fun t => some [t])
    [("a", [⟨true, 1⟩, ⟨false, 2⟩]), ("b", [⟨true, 3⟩])] ⟨some [9], none⟩
    (fun a _ itx _ _ => ⟨[itx.rawTx], rfl⟩)
  ⟨t.1.trans (by decide), t.2 2 (by decide)⟩

/-- Pairs handed to the target store so far: committed chunks flattened,
then the in-flight batch. -/
def tbWrites (st : TrieBatchState) : List (List Nat × List Nat) :=
  st.commits.flatten ++ st.pending

lemma tbWrites_putFlush (st : TrieBatchState) (p : List Nat × List Nat) :
    tbWrites (putFlush st p) = tbWrites st ++ [p] := by
  unfold putFlush tbWrites
  split <;> simp

lemma tbWrites_putPlain (st : TrieBatchState) (p : List Nat × List Nat) :
    tbWrites (putPlain st p) = tbWrites st ++ [p] := by
  simp [putPlain, tbWrites]

lemma commits_putFlush (st : TrieBatchState) (p : List Nat × List Nat)
    (h : ∀ c ∈ st.commits, maxBatchSize < batchSize c) :
    ∀ c ∈ (putFlush st p).commits, maxBatchSize < batchSize c := by
  unfold putFlush
  split
  · intro c hc
    rcases List.mem_append.mp hc with hc | hc
    · exact h c hc
    · rw [List.mem_singleton.mp hc]
      omega
  · exact h

lemma genSnapshotNode_writes (dec : List Nat → InnerAccount)
    (sr tr : List Nat) (acc : TrieBatchState × List (List Nat)) (n : JmtNode) :
    tbWrites (genSnapshotNode dec sr tr acc n).1
      = tbWrites acc.1 ++ [(n.leafKey, n.leafValue)] := by
  unfold genSnapshotNode
  split
  · split <;> simp [tbWrites_putFlush]
  · simp [tbWrites_putFlush]

lemma genSnapshotNode_commits (dec : List Nat → InnerAccount)
    (sr tr : List Nat) (acc : TrieBatchState × List (List Nat)) (n : JmtNode)
    (h : ∀ c ∈ acc.1.commits, maxBatchSize < batchSize c) :
    ∀ c ∈ (genSnapshotNode dec sr tr acc n).1.commits,
      maxBatchSize < batchSize c := by
  unfold genSnapshotNode
  split
  · split <;> exact commits_putFlush _ _ h
  · exact commits_putFlush _ _ h

lemma genSnapshot_fold (dec : List Nat → InnerAccount) (sr tr : List Nat)
    (nodes : List JmtNode) (st : TrieBatchState) (q : List (List Nat))
    (h : ∀ c ∈ st.commits, maxBatchSize < batchSize c) :
    tbWrites (nodes.foldl (genSnapshotNode dec sr tr) (st, q)).1
        = tbWrites st ++ nodes.map (fun n => (n.leafKey, n.leafValue))
      ∧ ∀ c ∈ (nodes.foldl (genSnapshotNode dec sr tr) (st, q)).1.commits,
          maxBatchSize < batchSize c := by
  induction nodes generalizing st q with
  | nil => exact ⟨by simp, h⟩
  | cons n rest ih =>
    simp only [List.foldl_cons, List.map_cons]
    have hstep := genSnapshotNode_writes dec sr tr (st, q) n
    have hcom := genSnapshotNode_commits dec sr tr (st, q) n h
    rcases hsurj : genSnapshotNode dec sr tr (st, q) n with ⟨st1, q1⟩
    rw [hsurj] at hstep hcom
    have := ih st1 q1 hcom
    refine ⟨?_, this.2⟩
    rw [this.1, hstep, List.append_assoc]
    simp

lemma iterateTrieNode_writes (bk : List Nat → List Nat)
    (dec : List Nat → InnerAccount) (sr tr : List Nat)
    (acc : TrieBatchState × List (List Nat)) (n : JmtNode) :
    tbWrites (iterateTrieNode bk dec sr tr acc n).1
      = tbWrites acc.1 ++ iterNodeWrites bk dec sr tr n := by
  unfold iterateTrieNode iterNodeWrites
  split
  · split <;> simp [tbWrites_putFlush, tbWrites_putPlain]
  · simp [tbWrites_putFlush]

lemma iterateTrieNode_commits (bk : List Nat → List Nat)
    (dec : List Nat → InnerAccount) (sr tr : List Nat)
    (acc : TrieBatchState × List (List Nat)) (n : JmtNode)
    (h : ∀ c ∈ acc.1.commits, maxBatchSize < batchSize c) :
    ∀ c ∈ (iterateTrieNode bk dec sr tr acc n).1.commits,
      maxBatchSize < batchSize c := by
  unfold iterateTrieNode
  split
  · split
    · exact commits_putFlush _ _ h
    · exact commits_putFlush _ _ h
  · exact commits_putFlush _ _ h

lemma iterateTrie_fold (bk : List Nat → List Nat)
    (dec : List Nat → InnerAccount) (sr tr : List Nat)
    (nodes : List JmtNode) (st : TrieBatchState) (q : List (List Nat))
    (h : ∀ c ∈ st.commits, maxBatchSize < batchSize c) :
    tbWrites (nodes.foldl (iterateTrieNode bk dec sr tr) (st, q)).1
        = tbWrites st ++ (nodes.map (iterNodeWrites bk dec sr tr)).flatten
      ∧ ∀ c ∈ (nodes.foldl (iterateTrieNode bk dec sr tr) (st, q)).1.commits,
          maxBatchSize < batchSize c := by
  induction nodes generalizing st q with
  | nil => exact ⟨by simp, h⟩
  | cons n rest ih =>
    simp only [List.foldl_cons, List.map_cons, List.flatten_cons]
    have hstep := iterateTrieNode_writes bk dec sr tr (st, q) n
    have hcom := iterateTrieNode_commits bk dec sr tr (st, q) n h
    rcases hsurj : iterateTrieNode bk dec sr tr (st, q) n with ⟨st1, q1⟩
    rw [hsurj] at hstep hcom
    have := ih st1 q1 hcom
    refine ⟨?_, this.2⟩
    rw [this.1, hstep, List.append_assoc]

/-- C8 (amended): for every trie root processed by `GenerateSnapshot`, the
pairs written to the snapshot store are the leaf key→value pairs of the
iterated leaves PLUS one trailing root-node entry copied from the backend
(so not only leaf pairs); `IterateTrie` writes every visited node (raw
key→value, plus the code blob copy for contract leaves of the original
root) plus the same root entry; in both, a chunk is committed early only
when its size exceeds 64 MiB; and an iterator error is sent on the error
channel and aborts the traversal before the root entry is written. -/
theorem stateLedger_traversal_writes (bk : List Nat → List Nat)
    (dec : List Nat → InnerAccount) (sr tr : List Nat)
    (nodes : List JmtNode) (st : TrieBatchState)
    (hbig : ∀ c ∈ st.commits, maxBatchSize < batchSize c) :
    rootWrites (generateSnapshotRoot bk dec sr tr nodes none st)
        = tbWrites st ++ nodes.map (fun n => (n.leafKey, n.leafValue))
          ++ [(tr, bk tr)]
      ∧ (generateSnapshotRoot bk dec sr tr nodes none st).errSent = none
      ∧ rootWrites (iterateTrieRoot bk dec sr tr nodes none st)
          = tbWrites st ++ (nodes.map (iterNodeWrites bk dec sr tr)).flatten
            ++ [(tr, bk tr)]
      ∧ (∀ c ∈ (generateSnapshotRoot bk dec sr tr nodes none st).commits,
          maxBatchSize < batchSize c)
      ∧ (∀ c ∈ (iterateTrieRoot bk dec sr tr nodes none st).commits,
          maxBatchSize < batchSize c)
      ∧ ∀ e, (generateSnapshotRoot bk dec sr tr nodes (some e) st).errSent
            = some e
          ∧ rootWrites (generateSnapshotRoot bk dec sr tr nodes (some e) st)
            = tbWrites st ++ nodes.map (fun n => (n.leafKey, n.leafValue))
          ∧ (iterateTrieRoot bk dec sr tr nodes (some e) st).errSent = some e := by
  have hg := genSnapshot_fold dec sr tr nodes st [] hbig
  have hi := iterateTrie_fold bk dec sr tr nodes st [] hbig
  rcases hgs : nodes.foldl (genSnapshotNode dec sr tr) (st, []) with ⟨gst, gq⟩
  rcases his : nodes.foldl (iterateTrieNode bk dec sr tr) (st, []) with ⟨ist, iq⟩
  rw [hgs] at hg
  rw [his] at hi
  have hg1 : gst.commits.flatten ++ gst.pending
      = tbWrites st ++ nodes.map (fun n => (n.leafKey, n.leafValue)) := hg.1
  have hi1 : ist.commits.flatten ++ ist.pending
      = tbWrites st ++ (nodes.map (iterNodeWrites bk dec sr tr)).flatten := hi.1
  refine ⟨?_, ?_, ?_, ?_, ?_, ?_⟩
  · simp only [generateSnapshotRoot, hgs, rootWrites, putPlain]
    rw [← List.append_assoc, hg1]
  · simp [generateSnapshotRoot, hgs]
  · simp only [iterateTrieRoot, his, rootWrites, putPlain]
    rw [← List.append_assoc, hi1]
  · simp only [generateSnapshotRoot, hgs, putPlain]
    exact fun c hc => hg.2 c hc
  · simp only [iterateTrieRoot, his, putPlain]
    exact fun c hc => hi.2 c hc
  · intro e
    refine ⟨by simp [generateSnapshotRoot, hgs], ?_,
      by simp [iterateTrieRoot, his]⟩
    simp only [generateSnapshotRoot, hgs, rootWrites]
    exact hg1

/-- Witness for C8 (amended) on a one-leaf trie: the snapshot writes are the
leaf pair followed by the root entry, and an iterator error is forwarded. -/
theorem stateLedger_traversal_writes_witness :
    rootWrites (generateSnapshotRoot (fun _ => [1]) (fun _ => ⟨none, []⟩)
        [0] [0] [⟨[5], [6], [7], [8]⟩] none ⟨[], []⟩)
      = [([7], [8]), ([0], [1])]
      ∧ (generateSnapshotRoot (fun _ => [1]) (fun _ => ⟨none, []⟩)
          [0] [0] [⟨[5], [6], [7], [8]⟩] (some "iter failed") ⟨[], []⟩).errSent
        = some "iter failed" :=
  have t := stateLedger_traversal_writes (fun _ => [1]) (fun _ => ⟨none, []⟩)
    [0] [0] [⟨[5], [6], [7], [8]⟩] ⟨[], []⟩ (by simp)
  ⟨t.1.trans (by decide), (t.2.2.2.2.2 "iter failed").1⟩

/-- C8 counterexample: on a trie with a single leaf node,
`GenerateSnapshot` also writes the root-node entry `([0], [1])` copied from
the backend, which is not the leaf key→value pair of any iterated node —
so "only leaf key→value pairs are written to the snapshot store" fails. -/
theorem generateSnapshot_root_entry_counterexample :
    rootWrites (generateSnapshotRoot (fun _ => [1]) (fun _ => ⟨none, []⟩)
        [0] [0] [⟨[5], [6], [7], [8]⟩] none ⟨[], []⟩)
      = [([7], [8]), ([0], [1])]
      ∧ ¬ leafPairsOnly [⟨[5], [6], [7], [8]⟩]
          (generateSnapshotRoot (fun _ => [1]) (fun _ => ⟨none, []⟩)
            [0] [0] [⟨[5], [6], [7], [8]⟩] none ⟨[], []⟩) := by
  constructor
  · decide
  · intro hall
    rcases hall ([0], [1]) (by decide) with ⟨n, hn, he⟩
    simp only [List.mem_singleton] at hn
    subst hn
    exact absurd he (by decide)

/-- C9 counterexample: with a chain state present and `IsDataSyncer =
false`, `Archive` returns immediately — no rotation happens although
`blockHeader.Number − lastArchiveBlock = 100 ≥ ArchiveBlockNum = 10` (and
not even the per-block journal/history/snapshot writes occur). -/
theorem archive_nonsyncer_guard_counterexample :
    (archive 10 (some false) (fun _ => some [0]) (fun _ _ => some [1])
        ⟨0, [], [], [], []⟩ ⟨100, 1⟩ ⟨[], [], [2]⟩)
      = (⟨0, [], [], [], []⟩, .skippedNonSyncer)
      ∧ 10 ≤ usub64 100 0
      ∧ (archive 10 (some false) (fun _ => some [0]) (fun _ _ => some [1])
          ⟨0, [], [], [], []⟩ ⟨100, 1⟩ ⟨[], [], [2]⟩).2 ≠ .rotated := by
  refine ⟨by decide, by decide, by decide⟩

/-- C9 (amended): provided the archiver has no chain state or the node is a
data syncer, and the epoch-info lookup and snapshot-meta marshal succeed,
the snapshot rotation happens iff `Number − lastArchiveBlock` (uint64
arithmetic) is at least `ArchiveBlockNum`; the three per-block writes
always occur; when not rotating, `lastArchiveBlock` and the snapshot-dir
copies are unchanged; when rotating, the meta keys are written, the live
snapshot directory is copied as `snapshot-<Number>`, and
`lastArchiveBlock := Number`. -/
theorem archiver_rotation_condition (abn : Nat) (cs : Option Bool)
    (ei : Nat → Option (List Nat))
    (mm : ArchiveHeader → List Nat → Option (List Nat))
    (st : ArchiverState) (hdr : ArchiveHeader) (sj : StateJournal)
    (hcs : cs = none ∨ cs = some true)
    (hep : ∃ ep, ei hdr.epoch = some ep ∧ ∃ mb, mm hdr ep = some mb) :
    ((archive abn cs ei mm st hdr sj).2 = .rotated
        ↔ abn ≤ usub64 hdr.number st.lastArchiveBlock)
      ∧ (archive abn cs ei mm st hdr sj).1.journalKV
          = st.journalKV ++ archiveJournalOps hdr sj
      ∧ (archive abn cs ei mm st hdr sj).1.historyKV
          = st.historyKV ++ archiveHistoryOps sj
      ∧ ((archive abn cs ei mm st hdr sj).2 ≠ .rotated →
          (archive abn cs ei mm st hdr sj).1.lastArchiveBlock
              = st.lastArchiveBlock
            ∧ (archive abn cs ei mm st hdr sj).1.snapshotDirs = st.snapshotDirs
            ∧ (archive abn cs ei mm st hdr sj).1.snapshotKV
              = st.snapshotKV ++ archiveSnapshotOps sj)
      ∧ ((archive abn cs ei mm st hdr sj).2 = .rotated →
          (archive abn cs ei mm st hdr sj).1.lastArchiveBlock = hdr.number
            ∧ ∃ mb, mm hdr ((ei hdr.epoch).getD []) = some mb
              ∧ (archive abn cs ei mm st hdr sj).1.snapshotKV
                = st.snapshotKV ++ archiveSnapshotOps sj
                  ++ archiveMetaOps mb hdr.number
              ∧ (archive abn cs ei mm st hdr sj).1.snapshotDirs
                = st.snapshotDirs
                  ++ [(hdr.number, st.snapshotKV ++ archiveSnapshotOps sj
                    ++ archiveMetaOps mb hdr.number)]) := by
  rcases hep with ⟨ep, hei, mb, hmb⟩
  rcases hcs with rfl | rfl
  all_goals
    unfold archive
    rw [if_neg (by simp)]
    dsimp only
    by_cases hcond : usub64 hdr.number st.lastArchiveBlock < abn
    · rw [if_pos hcond]
      exact ⟨⟨fun h => ArchiveOutcome.noConfusion h, fun h => absurd h (by omega)⟩,
        rfl, rfl, fun _ => ⟨rfl, rfl, rfl⟩, fun h => ArchiveOutcome.noConfusion h⟩
    · rw [if_neg hcond]
      simp [hei, hmb]
      omega

/-- Witness for C9 (amended) at concrete states: rotation fires at height
10 with `lastArchiveBlock = 0` and `ArchiveBlockNum = 10`, and is skipped
at height 9. -/
theorem archiver_rotation_condition_witness :
    (archive 10 none (fun _ => some [0]) (fun _ _ => some [1])
        ⟨0, [], [], [], []⟩ ⟨10, 1⟩ ⟨[], [], [2]⟩).2 = .rotated
      ∧ (archive 10 none (fun _ => some [0]) (fun _ _ => some [1])
          ⟨0, [], [], [], []⟩ ⟨9, 1⟩ ⟨[], [], [2]⟩).1.lastArchiveBlock = 0 :=
  have t10 := archiver_rotation_condition 10 none (fun _ => some [0])
    (fun _ _ => some [1]) ⟨0, [], [], [], []⟩ ⟨10, 1⟩ ⟨[], [], [2]⟩
    (Or.inl rfl) ⟨[0], rfl, [1], rfl⟩
  have t9 := archiver_rotation_condition 10 none (fun _ => some [0])
    (fun _ _ => some [1]) ⟨0, [], [], [], []⟩ ⟨9, 1⟩ ⟨[], [], [2]⟩
    (Or.inl rfl) ⟨[0], rfl, [1], rfl⟩
  ⟨t10.1.mpr (by decide),
   (t9.2.2.2.1 (fun h => by rw [t9.1] at h; revert h; decide)).1⟩
